import Mathlib

/-!
Verification development for the NBA data scraping / reconciliation pipeline.

The Lean definitions below are shallow embeddings of the Python source:
  * `AddChineseNames.normalize_name`  embeds `normalize_name` of src/add_chinese_names.py
  * `DataMerger.normalize_name`       embeds `normalize_name` of src/data_merger.py
  * `DataMerger.find_salary` and `DataMerger.merge_roster_with_salary`
                                      embed src/data_merger.py
  * `DataCleaner.*`                   embeds src/data_cleaner.py
  * `Storage.save`                    embeds `CSVStorage.save` of src/storage.py
  * `RequestHandler.get`              embeds `RequestHandler.get` of src/nba_crawler/request_handler.py

Strings are modelled as Lean `String`s (lists of characters); Python's
`re` character classes, `str.split()`, `' '.join`, `str.strip()` and
`str.lower()` are modelled character by character.  Python floats are
modelled as exact rationals (`ℚ`); decimal literals of the shapes that
occur in the scraped data (optional sign, digits, optional fraction) are
parsed exactly, exponent forms are outside the model.  Unicode NFD
decomposition is modelled by a table that is the identity on ASCII
(NFD fixes every ASCII character) and decomposes the accented letters of
the Latin-1 supplement; other code points are left undecomposed.
-/

/-! ## Definitions -/

/-- Whitespace test modelling Python's `\s` / `str.split()` on the ASCII
range (space, tab, newline, carriage return, vertical tab, form feed). -/
def isWsChar (c : Char) : Bool :=
  c.toNat = 32 || c.toNat = 9 || c.toNat = 10 || c.toNat = 13 || c.toNat = 11 || c.toNat = 12

/-- ASCII lowercase letter `[a-z]`. -/
def isLowerAZ (c : Char) : Bool :=
  97 ≤ c.toNat && c.toNat ≤ 122

/-- The character class kept by `re.sub(r'[^a-z\s]', '', ...)`. -/
def keepChar (c : Char) : Bool :=
  isLowerAZ c || isWsChar c

/-- Python `str.lower()` restricted to the ASCII range (the only code
points that can reach the places where the source calls `lower`
and still survive the following `[^a-z\s]` filter). -/
def pyLower (c : Char) : Char :=
  if 65 ≤ c.toNat && c.toNat ≤ 90 then Char.ofNat (c.toNat + 32) else c

/-- ASCII test, modelling `str.encode('ascii', 'ignore')` keeping a char. -/
def isAsciiCh (c : Char) : Bool :=
  c.toNat < 128

/-- ASCII decimal digit, modelling `re`'s `\d` on the inputs in scope. -/
def isDigitCh (c : Char) : Bool :=
  48 ≤ c.toNat && c.toNat ≤ 57

/-- Explicit concat-map on lists (kept local for stable equations). -/
def concatMap (f : α → List β) : List α → List β
  | [] => []
  | a :: l => f a ++ concatMap f l

/-- One step of the right fold that implements Python `str.split()`:
the accumulator is (current word, completed words). -/
def wordStep (c : Char) (p : List Char × List (List Char)) : List Char × List (List Char) :=
  if isWsChar c then ([], if p.1.isEmpty then p.2 else p.1 :: p.2)
  else (c :: p.1, p.2)

def splitWsP (l : List Char) : List Char × List (List Char) :=
  l.foldr wordStep ([], [])

/-- Python `str.split()` (split on whitespace runs, dropping empties). -/
def splitWs (l : List Char) : List (List Char) :=
  let p := splitWsP l
  if p.1.isEmpty then p.2 else p.1 :: p.2

/-- Python `' '.join(words)`. -/
def joinWords : List (List Char) → List Char
  | [] => []
  | [w] => w
  | w :: x :: ws => w ++ ' ' :: joinWords (x :: ws)

/-- The shared tail of both normalizers:
`lower` → `re.sub(r'[^a-z\s]', '', ...)` → `' '.join(s.split())`. -/
def tailPipe (l : List Char) : List Char :=
  joinWords (splitWs ((l.map pyLower).filter keepChar))

/-- NFD decompositions of the accented letters of the Latin-1 supplement
(base letter followed by a combining mark); identity elsewhere. -/
def nfdTable (c : Char) : List Char :=
  match c with
  | 'À' => ['A', '̀'] | 'Á' => ['A', '́'] | 'Â' => ['A', '̂']
  | 'Ã' => ['A', '̃'] | 'Ä' => ['A', '̈'] | 'Å' => ['A', '̊']
  | 'Ç' => ['C', '̧']
  | 'È' => ['E', '̀'] | 'É' => ['E', '́'] | 'Ê' => ['E', '̂']
  | 'Ë' => ['E', '̈']
  | 'Ì' => ['I', '̀'] | 'Í' => ['I', '́'] | 'Î' => ['I', '̂']
  | 'Ï' => ['I', '̈']
  | 'Ñ' => ['N', '̃']
  | 'Ò' => ['O', '̀'] | 'Ó' => ['O', '́'] | 'Ô' => ['O', '̂']
  | 'Õ' => ['O', '̃'] | 'Ö' => ['O', '̈']
  | 'Ù' => ['U', '̀'] | 'Ú' => ['U', '́'] | 'Û' => ['U', '̂']
  | 'Ü' => ['U', '̈']
  | 'Ý' => ['Y', '́']
  | 'à' => ['a', '̀'] | 'á' => ['a', '́'] | 'â' => ['a', '̂']
  | 'ã' => ['a', '̃'] | 'ä' => ['a', '̈'] | 'å' => ['a', '̊']
  | 'ç' => ['c', '̧']
  | 'è' => ['e', '̀'] | 'é' => ['e', '́'] | 'ê' => ['e', '̂']
  | 'ë' => ['e', '̈']
  | 'ì' => ['i', '̀'] | 'í' => ['i', '́'] | 'î' => ['i', '̂']
  | 'ï' => ['i', '̈']
  | 'ñ' => ['n', '̃']
  | 'ò' => ['o', '̀'] | 'ó' => ['o', '́'] | 'ô' => ['o', '̂']
  | 'õ' => ['o', '̃'] | 'ö' => ['o', '̈']
  | 'ù' => ['u', '̀'] | 'ú' => ['u', '́'] | 'û' => ['u', '̂']
  | 'ü' => ['u', '̈']
  | 'ý' => ['y', '́'] | 'ÿ' => ['y', '̈']
  | _ => [c]

/-- Per-character Unicode NFD (`unicodedata.normalize('NFD', ...)`):
the identity on ASCII, table-driven on the Latin-1 supplement. -/
def nfdChar (c : Char) : List Char :=
  if c.toNat < 128 then [c] else nfdTable c

namespace AddChineseNames

/-- Embeds `normalize_name` of src/add_chinese_names.py (lines 16-39):
NFD decomposition, drop non-ASCII, lowercase, keep only `[a-z\s]`,
collapse whitespace.  The Python guard `if not name or pd.isna(name)`
reduces, for string input, to the empty-string test. -/
def normalize_name (s : String) : String :=
  if s = "" then ""
  else String.mk (tailPipe ((concatMap nfdChar s.data).filter isAsciiCh))

/-- `normalize_name` lifted to a possibly missing value (`None`/`NaN`
input takes the `pd.isna` branch and yields the empty string). -/
def normalizeCell (x : Option String) : String :=
  match x with
  | none => ""
  | some s => normalize_name s

/-- Embeds the matching step of `add_chinese_names_to_nba_stats`
(src/add_chinese_names.py lines 299-308) for one record: look the
normalized player name up in the name mapping; on a miss the Chinese
name cell is set to the empty string. -/
def matchChineseName (nameMapping : List (String × String × String)) (playerName : String) :
    String :=
  let normalized := normalize_name playerName
  match nameMapping.lookup normalized with
  | some pr => pr.1
  | none => ""

end AddChineseNames

/-- `re.sub(r'\d+', '', ...)`: delete every digit character. -/
def removeDigits (l : List Char) : List Char :=
  l.filter (fun c => !isDigitCh c)

def removeDigitsStr (s : String) : String :=
  String.mk (removeDigits s.data)

namespace DataMerger

/-- Embeds `normalize_name` of src/data_merger.py (lines 48-63): delete
digits, lowercase, keep only `[a-z\s]`, collapse whitespace.  Unlike the
normalizer in src/add_chinese_names.py there is no NFD decomposition and
no ASCII filter. -/
def normalize_name (s : String) : String :=
  if s = "" then ""
  else String.mk (tailPipe (removeDigits s.data))

end DataMerger

/-- Python `str.strip()` on the modelled (ASCII) whitespace set. -/
def pyStrip (s : String) : String :=
  String.mk (((s.data.dropWhile isWsChar).reverse.dropWhile isWsChar).reverse)

def digitVal (c : Char) : ℕ := c.toNat - 48

def digitsToNat (l : List Char) : ℕ :=
  l.foldl (fun a c => 10 * a + digitVal c) 0

/-- The exact rational value of the decimal literal `ip.fp` (integer
part, fractional part).  Built with `mkRat` so that it reduces inside
the kernel; `decQ_eq` relates it to the textbook form `ip + fp/10^k`. -/
def decQ (ip fp : List Char) : ℚ :=
  mkRat (digitsToNat ip * 10 ^ fp.length + digitsToNat fp) (10 ^ fp.length)

/-- `q * 100`, built with `mkRat` so that it reduces inside the kernel;
`ratTimes100_eq` shows it is multiplication by 100. -/
def ratTimes100 (q : ℚ) : ℚ :=
  mkRat (q.num * 100) q.den

/-- Decimal literal without sign: digits, optionally followed by a dot
and more digits; at least one digit overall. -/
def parseUnsignedQ (l : List Char) : Option ℚ :=
  let ip := l.takeWhile isDigitCh
  let rest := l.dropWhile isDigitCh
  match rest with
  | [] => if ip.isEmpty then none else some (decQ ip [])
  | '.' :: fp =>
    if fp.all isDigitCh && !(ip.isEmpty && fp.isEmpty) then some (decQ ip fp)
    else none
  | _ => none

/-- Models Python `float(s)` on the decimal literals the scraped data
uses: surrounding whitespace, an optional sign, digits with an optional
fractional part.  Exponent notation and the words inf/nan are outside
the model (they do not occur in the scraped tables). -/
def parseFloatQ (s : String) : Option ℚ :=
  match (pyStrip s).data with
  | '+' :: l => parseUnsignedQ l
  | '-' :: l => (parseUnsignedQ l).map (fun q => -q)
  | l => parseUnsignedQ l

namespace DataCleaner

/-- Embeds `DataCleaner._parse_percentage` of src/data_cleaner.py
(lines 150-180) on a possibly missing (`NaN` = `none`) string value:
if a `%` occurs anywhere, delete every `%` and parse the rest; otherwise
parse as a bare decimal and multiply by 100 exactly when the parsed
value is `<= 1`; unparseable text yields `none` (Python `None`/NaN). -/
def parse_percentage (value : Option String) : Option ℚ :=
  match value with
  | none => none
  | some raw =>
    let v := pyStrip raw
    if v.data.contains '%' then
      parseFloatQ (String.mk (v.data.filter (fun c => c ≠ '%')))
    else
      match parseFloatQ v with
      | some q => some (if q ≤ 1 then ratTimes100 q else q)
      | none => none

end DataCleaner

/-- Words are nonempty and contain no whitespace — the invariant of the
output of Python `str.split()`. -/
def goodWords (ws : List (List Char)) : Prop :=
  ∀ w ∈ ws, w ≠ [] ∧ ∀ c ∈ w, isWsChar c = false

/-- No two adjacent spaces. -/
def noDblSpace : List Char → Bool
  | [] => true
  | [_] => true
  | c :: d :: r => !(c == ' ' && d == ' ') && noDblSpace (d :: r)

/-- What a single input character contributes to the normalized key of
src/add_chinese_names.py: NFD decomposition, ASCII filter, lowercasing,
and the `[a-z\s]` filter (everything before whitespace collapsing). -/
def charContrib (c : Char) : List Char :=
  (((nfdChar c).filter isAsciiCh).map pyLower).filter keepChar

def cleanedChars (s : String) : List Char :=
  concatMap charContrib s.data

namespace DataMerger

/-- `norm.split()[-1] if norm.split() else ""` — the surname token. -/
def lastTok (s : String) : List Char :=
  (splitWs s.data).getLastD []

/-- `norm.split()[0][0]` as a one-character string (empty for an empty
split) — the first token's first character. -/
def firstInit (s : String) : List Char :=
  ((splitWs s.data).headD []).take 1

/-- The acceptance test of the fallback loop in `find_salary`
(src/data_merger.py lines 104-115): nonempty last tokens that agree,
and agreeing first initials. -/
def fallbackMatch (norm espn : String) : Bool :=
  !(lastTok norm).isEmpty && !(lastTok espn).isEmpty
    && lastTok norm == lastTok espn && firstInit norm == firstInit espn

/-- The `for espn_name, salary in salary_map.items():` loop of
`find_salary`, returning on the first accepted candidate, else `""`. -/
def fallbackScan : List (String × String) → String → String
  | [], _ => ""
  | (en, sal) :: rest, norm => if fallbackMatch norm en then sal else fallbackScan rest norm

/-- Embeds `find_salary` of src/data_merger.py (lines 97-117): exact
lookup of the normalized name in the salary map, then the fallback scan,
else the empty string. -/
def find_salary (salaryMap : List (String × String)) (englishName : String) : String :=
  let norm := normalize_name englishName
  match salaryMap.lookup norm with
  | some s => s
  | none => fallbackScan salaryMap norm

end DataMerger

/-- Python dict assignment `m[k] = v` on an association list: replace
the value at the first occurrence of `k` (keeping its position), else
append a new entry. -/
def updDict {V : Type} : List (String × V) → String → V → List (String × V)
  | [], k, v => [(k, v)]
  | (k0, v0) :: m, k, v => if k0 = k then (k0, v) :: m else (k0, v0) :: updDict m k v

namespace AddChineseNames

/-- One iteration of the player loop in `fetch_nba_china_names`
(src/add_chinese_names.py lines 136-148).  An entry is the pair
(`displayNameEn`, `displayName`); both must be non-empty (Python
truthiness) and the normalized English name must be non-empty; then the
dict assignment `name_map[normalized_en] = (name_cn, name_en)` runs. -/
def officialStep (m : List (String × String × String)) (e : String × String) :
    List (String × String × String) :=
  if e.1 ≠ "" ∧ e.2 ≠ "" then
    if normalize_name e.1 ≠ "" then updDict m (normalize_name e.1) (e.2, e.1) else m
  else m

/-- Embeds `fetch_nba_china_names` of src/add_chinese_names.py (lines
110-156) on the flattened, order-preserving list of player entries
returned across the season loop (network plumbing abstracted away). -/
def fetch_nba_china_names (players : List (String × String)) :
    List (String × String × String) :=
  players.foldl officialStep []

/-- Whether an entry of the official feed writes the key `k`. -/
def entryWrites (e : String × String) (k : String) : Prop :=
  e.1 ≠ "" ∧ e.2 ≠ "" ∧ normalize_name e.1 = k ∧ normalize_name e.1 ≠ ""

instance (e : String × String) (k : String) : Decidable (entryWrites e k) := by
  unfold entryWrites
  infer_instance

/-- The value the Python dict holds at key `k` after the official loop:
the value of the LAST entry that writes `k` (plain dict assignment). -/
def specLookup : List (String × String) → String → Option (String × String)
  | [], _ => none
  | e :: ps, k =>
    match specLookup ps k with
    | some v => some v
    | none => if entryWrites e k then some (e.2, e.1) else none

/-- One iteration of the manual-dictionary loop of
`load_player_names_mapping` (src/add_chinese_names.py lines 261-264):
insert only if the normalized key is non-empty and absent. -/
def manualStep (m : List (String × String × String)) (e : String × String) :
    List (String × String × String) :=
  if normalize_name e.1 ≠ "" ∧ (m.lookup (normalize_name e.1)).isNone then
    m ++ [(normalize_name e.1, (e.2, e.1))]
  else m

/-- Embeds `load_player_names_mapping` of src/add_chinese_names.py
(lines 158-266): the official map first, then the manual entries. -/
def load_player_names_mapping (players manual : List (String × String)) :
    List (String × String × String) :=
  manual.foldl manualStep (fetch_nba_china_names players)

end AddChineseNames

namespace RequestHandler

/-- One simulated attempt outcome of `self.session.get`:
a response with an HTTP status code, or one of the caught exceptions
(`Timeout`, `ConnectionError`, other `RequestException`). -/
inductive Outcome
  | status (code : Nat)
  | timeout
  | connError
  | reqError
deriving DecidableEq, Repr

/-- `MAX_RETRIES` from src/config.py. -/
def MAX_RETRIES : Nat := 3

/-- The acceptance test of `RequestHandler.get`
(src/nba_crawler/request_handler.py line 78): only a literal 200 status
is returned; every other status and every caught exception leads to a
retry. -/
def isSuccess : Outcome → Bool
  | .status c => c == 200
  | _ => false

/-- The retry loop of `RequestHandler.get`
(src/nba_crawler/request_handler.py lines 66-97), attempt by attempt:
result is the returned outcome (`none` = the Python `None` failure
sentinel), together with the number of dispatched requests and the list
of back-off waits (`(attempt+1) * 2` seconds, lines 91-94; no wait after
the final attempt). -/
def getAux (outcomes : Nat → Outcome) (attempt : Nat) : Nat → Option Outcome × Nat × List Nat
  | 0 => (none, 0, [])
  | fuel + 1 =>
    let o := outcomes attempt
    if isSuccess o then (some o, 1, [])
    else if fuel = 0 then (none, 1, [])
    else
      let r := getAux outcomes (attempt + 1) fuel
      (r.1, r.2.1 + 1, (attempt + 1) * 2 :: r.2.2)

/-- Embeds `RequestHandler.get` with the i-th dispatch producing
`outcomes i`. -/
def get (outcomes : Nat → Outcome) : Option Outcome × Nat × List Nat :=
  getAux outcomes 0 MAX_RETRIES

end RequestHandler

/-- Index of the first occurrence of a column label. -/
def idxOf? (name : String) : List String → Option Nat
  | [] => none
  | c :: cols => if c = name then some 0 else (idxOf? name cols).map (fun i => i + 1)

/-- Replace the element at an index (identity when out of range). -/
def modifyAt {α : Type} (f : α → α) : Nat → List α → List α
  | _, [] => []
  | 0, a :: l => f a :: l
  | n + 1, a :: l => a :: modifyAt f n l

/-- Fallibly replace the element at an index (failure aborts). -/
def modifyAtO {α : Type} (f : α → Option α) : Nat → List α → Option (List α)
  | _, [] => some []
  | 0, a :: l => (f a).map (fun b => b :: l)
  | n + 1, a :: l => (modifyAtO f n l).map (fun t => a :: t)

/-- First-occurrence-wins de-duplication by a key function — pandas
`drop_duplicates(keep="first")`; `seen` carries the keys kept so far. -/
def ddAux {α β : Type} [DecidableEq β] (key : α → β) (seen : List β) : List α → List α
  | [] => []
  | a :: l => if key a ∈ seen then ddAux key seen l else a :: ddAux key (key a :: seen) l

def dedupBy {α β : Type} [DecidableEq β] (key : α → β) (l : List α) : List α :=
  ddAux key [] l

namespace DataCleaner

/-- A pandas cell: NaN, a string, a float (exact rational model), or an
Int64 integer. -/
inductive Cell
  | na
  | s (v : String)
  | num (q : ℚ)
  | int (n : ℤ)
deriving DecidableEq, Repr

/-- A pandas DataFrame: column labels and positional rows. -/
structure DF where
  cols : List String
  rows : List (List Cell)
deriving DecidableEq, Repr

def isNa : Cell → Bool
  | .na => true
  | _ => false

/-- `pd.to_numeric(..., errors="coerce")` on one cell. -/
def toNumericCell : Cell → Cell
  | .na => .na
  | .s v =>
    match parseFloatQ v with
    | some q => .num q
    | none => .na
  | .num q => .num q
  | .int n => .int n

/-- `_parse_percentage` applied to one cell; the numeric branches follow
from `str(value)` round-tripping the number through `float`. -/
def parsePercentageCell : Cell → Cell
  | .na => .na
  | .s v =>
    match parse_percentage (some v) with
    | some q => .num q
    | none => .na
  | .num q => .num (if q ≤ 1 then ratTimes100 q else q)
  | .int n => .num (if (mkRat n 1) ≤ 1 then ratTimes100 (mkRat n 1) else mkRat n 1)

/-- `pd.to_numeric(..., errors="coerce").astype("Int64")` on one cell:
a non-integral numeric value makes the unsafe cast raise (`none`). -/
def rankCell : Cell → Option Cell
  | .na => some .na
  | .s v =>
    match parseFloatQ v with
    | some q => if q.den = 1 then some (.int q.num) else none
    | none => some .na
  | .num q => if q.den = 1 then some (.int q.num) else none
  | .int n => some (.int n)

/-- pandas `.str.strip()` on one cell: strings are stripped, everything
that is not a string becomes NaN. -/
def stripCell : Cell → Cell
  | .s v => .s (pyStrip v)
  | _ => .na

/-- Apply `f` down a named column when the column exists (the source
guards each conversion with `if col in df.columns`). -/
def applyColIfPresent (cols : List String) (name : String) (f : Cell → Cell)
    (rows : List (List Cell)) : List (List Cell) :=
  match idxOf? name cols with
  | some i => rows.map (modifyAt f i)
  | none => rows

/-- The rank conversion down the `排名` column; the unsafe `Int64` cast
aborts the whole clean if any cell is non-integral. -/
def applyRankCol (cols : List String) (name : String) (rows : List (List Cell)) :
    Option (List (List Cell)) :=
  match idxOf? name cols with
  | some i => rows.mapM (modifyAtO rankCell i)
  | none => some rows

/-- The `numeric_columns` table of `clean_player_stats`
(src/data_cleaner.py lines 37-46). -/
def numericColumns (category : String) : List String :=
  if category = "pts" then ["场次", "时间", "得分"]
  else if category = "reb" then ["场次", "前场", "后场", "总篮板"]
  else if category = "asts" then ["场次", "时间", "助攻"]
  else if category = "fgp" then ["场次", "命中", "出手"]
  else if category = "tpp" then ["场次", "命中", "出手"]
  else if category = "ftp" then ["场次", "命中", "出手"]
  else if category = "blk" then ["场次", "时间", "盖帽"]
  else if category = "stl" then ["场次", "时间", "抢断"]
  else []

/-- Rows of `clean_player_stats` just before `drop_duplicates`:
`dropna(how="all")`, numeric conversions, percentage parsing. -/
def statsPipeline (category : String) (df : DF) : List (List Cell) :=
  let rows := df.rows.filter (fun r => !(r.all isNa))
  let rows := (numericColumns category).foldl
    (fun rs col => applyColIfPresent df.cols col toNumericCell rs) rows
  applyColIfPresent df.cols "命中率" parsePercentageCell rows

/-- Embeds `DataCleaner.clean_player_stats` of src/data_cleaner.py
(lines 17-64).  `none` models the pandas exception raised by the unsafe
`Int64` cast on a non-integral rank. -/
def clean_player_stats (df : DF) (category : String) : Option DF :=
  if df.rows.isEmpty then some ⟨[], []⟩
  else
    match applyRankCol df.cols "排名" (statsPipeline category df) with
    | none => none
    | some rows => some ⟨df.cols, dedupBy id rows⟩

/-- Rows of `clean_roster` just before `drop_duplicates(subset=["球员"])`:
`dropna(how="all")` and the two `.str.strip()` columns. -/
def rosterPipeline (df : DF) : List (List Cell) :=
  let rows := df.rows.filter (fun r => !(r.all isNa))
  let rows := applyColIfPresent df.cols "球员" stripCell rows
  applyColIfPresent df.cols "英文名" stripCell rows

/-- Embeds `DataCleaner.clean_roster` of src/data_cleaner.py (lines
125-148).  `none` models the pandas `KeyError` raised by
`drop_duplicates(subset=["球员"])` when the identity column is absent. -/
def clean_roster (df : DF) : Option DF :=
  if df.rows.isEmpty then some ⟨[], []⟩
  else
    match idxOf? "球员" df.cols with
    | none => none
    | some i => some ⟨df.cols, dedupBy (fun r => r.getD i Cell.na) (rosterPipeline df)⟩

end DataCleaner

namespace Storage

/-- A CSV rendering of one cell (quoting subtleties are irrelevant to
the claims and not modelled). -/
def renderCell : DataCleaner.Cell → String
  | .na => ""
  | .s v => v
  | .num q => toString q
  | .int n => toString n

def renderRow (r : List DataCleaner.Cell) : String :=
  String.intercalate "," (r.map renderCell)

/-- The file system visible to `CSVStorage.save`: path to content lines. -/
structure FS where
  files : List (String × List String)
deriving DecidableEq, Repr

def getFile (fs : FS) (p : String) : Option (List String) :=
  fs.files.lookup p

def setFile (fs : FS) (p : String) (content : List String) : FS :=
  ⟨updDict fs.files p content⟩

def OUTPUT_DIR : String := "output"

/-- `df.empty`: some axis has length zero. -/
def dfEmpty (df : DataCleaner.DF) : Bool :=
  df.rows.isEmpty || df.cols.isEmpty

/-- Embeds `CSVStorage.save` of src/storage.py (lines 22-63): an empty
record set is not persisted and `None` is returned before any path or
file operation; append mode without an existing file falls back to a
fresh write including the header. -/
def save (fs : FS) (df : DataCleaner.DF) (filename mode : String) : Option String × FS :=
  if dfEmpty df then (none, fs)
  else
    let filepath := OUTPUT_DIR ++ "/" ++ filename
    let header := String.intercalate "," df.cols
    let rows := df.rows.map renderRow
    if mode = "a" ∧ (getFile fs filepath).isSome then
      (some filepath, setFile fs filepath ((getFile fs filepath).getD [] ++ rows))
    else
      (some filepath, setFile fs filepath (header :: rows))

end Storage

namespace DataMerger

/-- A DataFrame whose cells are CSV-sourced strings. -/
structure DF where
  cols : List String
  rows : List (List String)
deriving DecidableEq, Repr

/-- Rows are positionally aligned with the column list. -/
def WF (df : DF) : Prop :=
  ∀ r ∈ df.rows, r.length = df.cols.length

/-- `row.get(col, "")`. -/
def rowGet (cols : List String) (name : String) (r : List String) : String :=
  match idxOf? name cols with
  | some i => r.getD i ""
  | none => ""

/-- `df[name] = df.apply(f, ...)`: overwrite the column in place when it
exists, else append it on the right. -/
def setColF (df : DF) (name : String) (f : List String → String) : DF :=
  match idxOf? name df.cols with
  | some i => ⟨df.cols, df.rows.map (fun r => r.set i (f r))⟩
  | none => ⟨df.cols ++ [name], df.rows.map (fun r => r ++ [f r])⟩

/-- `df.drop(columns=[name], errors="ignore")`. -/
def dropCol (df : DF) (name : String) : DF :=
  match idxOf? name df.cols with
  | some i => ⟨df.cols.eraseIdx i, df.rows.map (fun r => r.eraseIdx i)⟩
  | none => df

/-- The salary-map construction of `merge_roster_with_salary`
(src/data_merger.py lines 89-94): keep rows with non-empty match name
and salary, later rows overwriting earlier ones (dict assignment). -/
def buildSalaryMap (espn : DF) : List (String × String) :=
  espn.rows.foldl (fun m r =>
    if rowGet espn.cols "_match_name" r ≠ "" ∧ rowGet espn.cols "Salary" r ≠ "" then
      updDict m (rowGet espn.cols "_match_name" r) (rowGet espn.cols "Salary" r)
    else m) []

/-- Embeds `merge_roster_with_salary` of src/data_merger.py (lines
66-124).  The `_match_name` column added to `hupu_df` before the `Name`
guard persists in the early return (pandas column assignment mutates the
argument in place). -/
def merge_roster_with_salary (hupu espn : DF) : DF :=
  if "英文名" ∈ hupu.cols then
    let hupu1 := setColF hupu "_match_name" (fun r => normalize_name (rowGet hupu.cols "英文名" r))
    if "Name" ∈ espn.cols then
      let espn1 := setColF espn "_match_name" (fun r => normalize_name (rowGet espn.cols "Name" r))
      let hupu2 := setColF hupu1 "薪资"
        (fun r => find_salary (buildSalaryMap espn1) (rowGet hupu1.cols "英文名" r))
      dropCol hupu2 "_match_name"
    else hupu1
  else hupu

end DataMerger

/-! ## Theorems -/

theorem decQ_eq (ip fp : List Char) :
    decQ ip fp = (digitsToNat ip : ℚ) + (digitsToNat fp : ℚ) / ((10 : ℚ) ^ fp.length) := by
  unfold decQ
  rw [Rat.mkRat_eq_div]
  push_cast
  field_simp

theorem ratTimes100_eq (q : ℚ) : ratTimes100 q = q * 100 := by
  unfold ratTimes100
  rw [Rat.mkRat_eq_div]
  push_cast
  rw [mul_comm (q.num : ℚ) 100, mul_div_assoc, Rat.num_div_den, mul_comm]

theorem splitWsP_nil : splitWsP [] = ([], []) := rfl

theorem splitWsP_cons (c : Char) (l : List Char) :
    splitWsP (c :: l) = wordStep c (splitWsP l) := rfl

theorem wordStep_ws (c : Char) (p : List Char × List (List Char)) (h : isWsChar c = true) :
    wordStep c p = ([], if p.1.isEmpty then p.2 else p.1 :: p.2) := by
  simp [wordStep, h]

theorem wordStep_nonws (c : Char) (p : List Char × List (List Char)) (h : isWsChar c = false) :
    wordStep c p = (c :: p.1, p.2) := by
  simp [wordStep, h]

theorem splitWs_eq (l : List Char) :
    splitWs l = if (splitWsP l).1.isEmpty then (splitWsP l).2
      else (splitWsP l).1 :: (splitWsP l).2 := rfl

theorem splitWs_eq_of_nil (l : List Char) (h : (splitWsP l).1 = []) :
    splitWs l = (splitWsP l).2 := by
  rw [splitWs_eq, h]
  simp

theorem splitWs_eq_of_ne_nil (l : List Char) (h : (splitWsP l).1 ≠ []) :
    splitWs l = (splitWsP l).1 :: (splitWsP l).2 := by
  rw [splitWs_eq]
  simp [List.isEmpty_iff, h]

theorem splitWsP_append_word (w rest : List Char) (hw : ∀ c ∈ w, isWsChar c = false) :
    splitWsP (w ++ rest) = (w ++ (splitWsP rest).1, (splitWsP rest).2) := by
  induction w with
  | nil => simp
  | cons c w ih =>
    have hc : isWsChar c = false := hw c (by simp)
    have ih' := ih (fun d hd => hw d (by simp [hd]))
    rw [List.cons_append, splitWsP_cons, ih', wordStep_nonws _ _ hc]
    simp

theorem splitWsP_space (l : List Char) :
    splitWsP (' ' :: l) = ([], splitWs l) := by
  rw [splitWsP_cons, wordStep_ws _ _ (by decide), splitWs_eq]

theorem splitWs_joinWords (ws : List (List Char)) (h : goodWords ws) :
    splitWs (joinWords ws) = ws := by
  induction ws with
  | nil => rfl
  | cons w ws ih =>
    have hw : w ≠ [] ∧ ∀ c ∈ w, isWsChar c = false := h w (by simp)
    cases ws with
    | nil =>
      show splitWs (joinWords [w]) = [w]
      have hP : splitWsP (joinWords [w]) = (w, []) := by
        have h2 := splitWsP_append_word w [] hw.2
        rw [List.append_nil] at h2
        simpa [splitWsP_nil, joinWords] using h2
      rw [splitWs_eq_of_ne_nil _ (by rw [hP]; exact hw.1), hP]
    | cons x ws' =>
      have ih' : splitWs (joinWords (x :: ws')) = x :: ws' :=
        ih (fun u hu => h u (by simp [hu]))
      show splitWs (w ++ ' ' :: joinWords (x :: ws')) = w :: x :: ws'
      have hP : splitWsP (w ++ ' ' :: joinWords (x :: ws'))
          = (w, splitWs (joinWords (x :: ws'))) := by
        rw [splitWsP_append_word w _ hw.2, splitWsP_space]
        simp
      rw [splitWs_eq_of_ne_nil _ (by rw [hP]; exact hw.1), hP, ih']

theorem splitWsP_spec (l : List Char) :
    (∀ c ∈ (splitWsP l).1, isWsChar c = false ∧ c ∈ l) ∧
      ∀ w ∈ (splitWsP l).2, w ≠ [] ∧ ∀ c ∈ w, isWsChar c = false ∧ c ∈ l := by
  induction l with
  | nil => simp [splitWsP_nil]
  | cons c l ih =>
    rw [splitWsP_cons]
    cases hc : isWsChar c with
    | true =>
      rw [wordStep_ws _ _ hc]
      refine ⟨by simp, ?_⟩
      cases he : (splitWsP l).1.isEmpty with
      | true =>
        rw [if_pos rfl]
        intro w hw
        obtain ⟨h1, h2⟩ := ih.2 w hw
        exact ⟨h1, fun d hd => ⟨(h2 d hd).1, by simp [(h2 d hd).2]⟩⟩
      | false =>
        rw [if_neg (by simp)]
        intro w hw
        rcases List.mem_cons.mp hw with rfl | hw'
        · refine ⟨by simpa [List.isEmpty_iff] using he, fun d hd => ?_⟩
          exact ⟨(ih.1 d hd).1, by simp [(ih.1 d hd).2]⟩
        · obtain ⟨h1, h2⟩ := ih.2 w hw'
          exact ⟨h1, fun d hd => ⟨(h2 d hd).1, by simp [(h2 d hd).2]⟩⟩
    | false =>
      rw [wordStep_nonws _ _ hc]
      constructor
      · intro d hd
        rcases List.mem_cons.mp hd with rfl | hd'
        · exact ⟨hc, by simp⟩
        · exact ⟨(ih.1 d hd').1, by simp [(ih.1 d hd').2]⟩
      · intro w hw
        obtain ⟨h1, h2⟩ := ih.2 w hw
        exact ⟨h1, fun d hd => ⟨(h2 d hd).1, by simp [(h2 d hd).2]⟩⟩

theorem splitWs_spec (l : List Char) :
    ∀ w ∈ splitWs l, w ≠ [] ∧ ∀ c ∈ w, isWsChar c = false ∧ c ∈ l := by
  have h := splitWsP_spec l
  intro w hw
  rw [splitWs_eq] at hw
  cases he : (splitWsP l).1.isEmpty with
  | true =>
    rw [he, if_pos rfl] at hw
    exact h.2 w hw
  | false =>
    rw [he, if_neg (by simp)] at hw
    rcases List.mem_cons.mp hw with rfl | hw'
    · refine ⟨?_, fun d hd => h.1 d hd⟩
      intro hnil
      rw [hnil] at he
      simp at he
    · exact h.2 w hw'

theorem goodWords_splitWs (l : List Char) : goodWords (splitWs l) :=
  fun w hw => ⟨(splitWs_spec l w hw).1, fun c hc => ((splitWs_spec l w hw).2 c hc).1⟩

theorem mem_joinWords (ws : List (List Char)) (c : Char) (hc : c ∈ joinWords ws) :
    c = ' ' ∨ ∃ w ∈ ws, c ∈ w := by
  induction ws with
  | nil => simp [joinWords] at hc
  | cons w ws ih =>
    cases ws with
    | nil =>
      right
      exact ⟨w, by simp, by simpa [joinWords] using hc⟩
    | cons x ws' =>
      simp only [joinWords, List.mem_append, List.mem_cons] at hc
      rcases hc with hw | rfl | hj
      · exact Or.inr ⟨w, by simp, hw⟩
      · exact Or.inl rfl
      · rcases ih hj with h | ⟨u, hu, hcu⟩
        · exact Or.inl h
        · exact Or.inr ⟨u, by simp [List.mem_cons.mp hu], hcu⟩

theorem joinWords_ne_nil (w : List Char) (ws : List (List Char)) (hw : w ≠ []) :
    joinWords (w :: ws) ≠ [] := by
  cases ws with
  | nil => simpa [joinWords] using hw
  | cons x ws' => simp [joinWords, hw]

theorem joinWords_head? (w : List Char) (ws : List (List Char)) (hw : w ≠ []) :
    (joinWords (w :: ws)).head? = w.head? := by
  cases ws with
  | nil => rfl
  | cons x ws' =>
    show (w ++ ' ' :: joinWords (x :: ws')).head? = w.head?
    cases w with
    | nil => exact absurd rfl hw
    | cons c w' => rfl

theorem joinWords_getLast? (ws : List (List Char)) (h : goodWords ws) (hne : ws ≠ []) :
    ∃ w ∈ ws, (joinWords ws).getLast? = w.getLast? := by
  induction ws with
  | nil => exact absurd rfl hne
  | cons w ws ih =>
    cases ws with
    | nil => exact ⟨w, by simp, rfl⟩
    | cons x ws' =>
      obtain ⟨u, hu, he⟩ := ih (fun v hv => h v (by simp [hv])) (by simp)
      refine ⟨u, by simp [List.mem_cons.mp hu], ?_⟩
      show (w ++ ' ' :: joinWords (x :: ws')).getLast? = u.getLast?
      rw [List.getLast?_append_of_ne_nil _ (by simp), ← he]
      have hx : x ≠ [] := (h x (by simp)).1
      have hne2 : joinWords (x :: ws') ≠ [] := joinWords_ne_nil x ws' hx
      cases hj : joinWords (x :: ws') with
      | nil => exact absurd hj hne2
      | cons d l => simp

theorem noDblSpace_cons_cons (c d : Char) (r : List Char) :
    noDblSpace (c :: d :: r) = (!(c == ' ' && d == ' ') && noDblSpace (d :: r)) := rfl

theorem noDblSpace_append_word (w rest : List Char) (hw : ∀ c ∈ w, c ≠ ' ')
    (hr : noDblSpace rest = true) : noDblSpace (w ++ rest) = true := by
  induction w with
  | nil => simpa
  | cons c w ih =>
    have ih' := ih (fun d hd => hw d (by simp [hd]))
    have hc : c ≠ ' ' := hw c (by simp)
    rw [List.cons_append]
    cases hwr : w ++ rest with
    | nil => rfl
    | cons d l =>
      rw [hwr] at ih'
      rw [noDblSpace_cons_cons, ih']
      simp [hc]

theorem noDblSpace_cons_space (l : List Char) (hl : l.head? ≠ some ' ')
    (h : noDblSpace l = true) : noDblSpace (' ' :: l) = true := by
  cases l with
  | nil => rfl
  | cons d r =>
    have hd : d ≠ ' ' := by simpa using hl
    rw [noDblSpace_cons_cons, h]
    simp [hd]

theorem noDblSpace_joinWords (ws : List (List Char)) (h : goodWords ws)
    (hsp : ∀ w ∈ ws, ∀ c ∈ w, c ≠ ' ') : noDblSpace (joinWords ws) = true := by
  induction ws with
  | nil => rfl
  | cons w ws ih =>
    cases ws with
    | nil =>
      show noDblSpace (joinWords [w]) = true
      have : joinWords [w] = w ++ [] := by simp [joinWords]
      rw [this]
      exact noDblSpace_append_word w [] (hsp w (by simp)) rfl
    | cons x ws' =>
      have ih' := ih (fun v hv => h v (by simp [hv])) (fun v hv => hsp v (by simp [hv]))
      show noDblSpace (w ++ ' ' :: joinWords (x :: ws')) = true
      refine noDblSpace_append_word w _ (hsp w (by simp)) ?_
      refine noDblSpace_cons_space _ ?_ ih'
      rw [joinWords_head? x ws' (h x (by simp)).1]
      cases hx : x with
      | nil => exact absurd hx (h x (by simp)).1
      | cons c l =>
        have : c ≠ ' ' := hsp x (by simp) c (by simp [hx])
        simpa using this

theorem mem_concatMap (f : α → List β) (l : List α) (b : β) (h : b ∈ concatMap f l) :
    ∃ a ∈ l, b ∈ f a := by
  induction l with
  | nil => simp [concatMap] at h
  | cons a l ih =>
    rw [concatMap] at h
    rcases List.mem_append.mp h with h1 | h2
    · exact ⟨a, by simp, h1⟩
    · obtain ⟨a', ha', hb⟩ := ih h2
      exact ⟨a', by simp [ha'], hb⟩

theorem concatMap_id_of_singleton (f : α → List α) (l : List α)
    (h : ∀ a ∈ l, f a = [a]) : concatMap f l = l := by
  induction l with
  | nil => rfl
  | cons a l ih =>
    rw [concatMap, h a (by simp), ih (fun a' ha' => h a' (by simp [ha']))]
    rfl

theorem pipeline_eq_concatMap (l : List Char) :
    (((concatMap nfdChar l).filter isAsciiCh).map pyLower).filter keepChar
      = concatMap charContrib l := by
  induction l with
  | nil => rfl
  | cons c l ih =>
    rw [concatMap, List.filter_append, List.map_append, List.filter_append, ih]
    rfl

theorem nfdChar_ascii (c : Char) (h : c.toNat < 128) : nfdChar c = [c] := by
  unfold nfdChar
  rw [if_pos h]

theorem pyLower_fix (c : Char) (h : ¬(65 ≤ c.toNat ∧ c.toNat ≤ 90)) : pyLower c = c := by
  unfold pyLower
  rw [if_neg]
  simp only [Bool.and_eq_true, decide_eq_true_eq]
  omega

theorem charContrib_letter_or_space (c : Char) (h : isLowerAZ c = true ∨ c = ' ') :
    charContrib c = [c] := by
  have hn : c.toNat < 128 ∧ ¬(65 ≤ c.toNat ∧ c.toNat ≤ 90) ∧ keepChar c = true := by
    rcases h with h | rfl
    · have : 97 ≤ c.toNat ∧ c.toNat ≤ 122 := by
        simpa [isLowerAZ, Bool.and_eq_true, decide_eq_true_eq] using h
      exact ⟨by omega, by omega, by simp [keepChar, h]⟩
    · exact ⟨by decide, by decide, by decide⟩
  unfold charContrib
  rw [nfdChar_ascii c hn.1]
  rw [show ([c].filter isAsciiCh) = [c] by simp [isAsciiCh, List.filter, decide_eq_true_eq, hn.1]]
  rw [show ([c].map pyLower) = [c] by simp [pyLower_fix c hn.2.1]]
  simp [List.filter, hn.2.2]

/-- `normalize_name` of src/add_chinese_names.py factors through the
per-character contribution followed by split/join — also for the empty
string, whose contribution list is empty. -/
theorem addcn_normalize_eq_cleaned (s : String) :
    AddChineseNames.normalize_name s = String.mk (joinWords (splitWs (cleanedChars s))) := by
  unfold AddChineseNames.normalize_name
  by_cases hs : s = ""
  · subst hs
    rfl
  · rw [if_neg hs]
    unfold tailPipe cleanedChars
    rw [pipeline_eq_concatMap]

theorem cleanedChars_keep (s : String) : ∀ c ∈ cleanedChars s, keepChar c = true := by
  intro c hc
  obtain ⟨a, _, hca⟩ := mem_concatMap _ _ _ hc
  unfold charContrib at hca
  exact (List.mem_filter.mp hca).2

theorem keep_not_ws_letter (c : Char) (hk : keepChar c = true) (hw : isWsChar c = false) :
    isLowerAZ c = true := by
  rcases Bool.or_eq_true_iff.mp (by simpa [keepChar] using hk) with h | h
  · exact h
  · rw [h] at hw
    cases hw

theorem space_isWs : isWsChar ' ' = true := by decide

/-- The four format properties of the canonical key produced by
`normalize_name` of src/add_chinese_names.py: only `[a-z ]` characters,
no leading space, no trailing space, no doubled space. -/
theorem addcn_normalize_format (s : String) :
    (∀ c ∈ (AddChineseNames.normalize_name s).data, isLowerAZ c = true ∨ c = ' ') ∧
      (AddChineseNames.normalize_name s).data.head? ≠ some ' ' ∧
      (AddChineseNames.normalize_name s).data.getLast? ≠ some ' ' ∧
      noDblSpace (AddChineseNames.normalize_name s).data = true := by
  rw [addcn_normalize_eq_cleaned]
  have hgood : goodWords (splitWs (cleanedChars s)) := goodWords_splitWs _
  have hwords := splitWs_spec (cleanedChars s)
  have hletter : ∀ w ∈ splitWs (cleanedChars s), ∀ c ∈ w, isLowerAZ c = true := by
    intro w hw c hc
    obtain ⟨hnw, hmem⟩ := (hwords w hw).2 c hc
    exact keep_not_ws_letter c (cleanedChars_keep s c hmem) hnw
  have hnospace : ∀ w ∈ splitWs (cleanedChars s), ∀ c ∈ w, c ≠ ' ' := by
    intro w hw c hc heq
    have := ((hwords w hw).2 c hc).1
    rw [heq, space_isWs] at this
    cases this
  refine ⟨?_, ?_, ?_, ?_⟩
  · intro c hc
    rcases mem_joinWords _ c hc with rfl | ⟨w, hw, hcw⟩
    · exact Or.inr rfl
    · exact Or.inl (hletter w hw c hcw)
  · cases hws : splitWs (cleanedChars s) with
    | nil => simp [joinWords]
    | cons w ws' =>
      have hwne : w ≠ [] := (hgood w (by rw [hws]; simp)).1
      rw [show (String.mk (joinWords (w :: ws'))).data = joinWords (w :: ws') from rfl,
        joinWords_head? w ws' hwne]
      cases w with
      | nil => exact absurd rfl hwne
      | cons c w' =>
        have : c ≠ ' ' := hnospace (c :: w') (by rw [hws]; simp) c (by simp)
        simpa using this
  · cases hws : splitWs (cleanedChars s) with
    | nil => simp [joinWords]
    | cons w ws' =>
      obtain ⟨u, hu, he⟩ := joinWords_getLast? (w :: ws')
        (by rw [← hws]; exact hgood) (by simp)
      rw [show (String.mk (joinWords (w :: ws'))).data = joinWords (w :: ws') from rfl, he]
      intro hlast
      have hmem := List.mem_of_getLast?_eq_some hlast
      exact hnospace u (by rw [hws]; exact hu) ' ' hmem rfl
  · rw [show (String.mk (joinWords (splitWs (cleanedChars s)))).data
        = joinWords (splitWs (cleanedChars s)) from rfl]
    exact noDblSpace_joinWords _ hgood hnospace

/-- Idempotence of `normalize_name` of src/add_chinese_names.py. -/
theorem addcn_normalize_idem (s : String) :
    AddChineseNames.normalize_name (AddChineseNames.normalize_name s)
      = AddChineseNames.normalize_name s := by
  have hchars := (addcn_normalize_format s).1
  have h1 : cleanedChars (AddChineseNames.normalize_name s)
      = (AddChineseNames.normalize_name s).data :=
    concatMap_id_of_singleton _ _ (fun c hc => charContrib_letter_or_space c (hchars c hc))
  rw [addcn_normalize_eq_cleaned (AddChineseNames.normalize_name s), h1,
    addcn_normalize_eq_cleaned s,
    show (String.mk (joinWords (splitWs (cleanedChars s)))).data
      = joinWords (splitWs (cleanedChars s)) from rfl,
    splitWs_joinWords _ (goodWords_splitWs _)]

theorem ascii_concatMap_nfd (l : List Char) (h : ∀ c ∈ l, c.toNat < 128) :
    concatMap nfdChar l = l :=
  concatMap_id_of_singleton _ _ (fun c hc => nfdChar_ascii c (h c hc))

theorem ascii_filter_eq_self (l : List Char) (h : ∀ c ∈ l, c.toNat < 128) :
    l.filter isAsciiCh = l := by
  rw [List.filter_eq_self]
  intro c hc
  simpa [isAsciiCh, decide_eq_true_eq] using h c hc

theorem string_mk_data (s : String) : String.mk s.data = s := rfl

/-- On all-ASCII input, `normalize_name` of src/data_merger.py agrees
with `normalize_name` of src/add_chinese_names.py applied after digit
removal (the NFD/ASCII steps of the latter are the identity there). -/
theorem merger_normalize_ascii (s : String) (h : ∀ c ∈ s.data, c.toNat < 128) :
    DataMerger.normalize_name s
      = AddChineseNames.normalize_name (removeDigitsStr s) := by
  have hrd : ∀ c ∈ removeDigits s.data, c.toNat < 128 := by
    intro c hc
    exact h c (List.mem_of_mem_filter hc)
  by_cases hs : s = ""
  · subst hs
    rfl
  · rw [show DataMerger.normalize_name s = String.mk (tailPipe (removeDigits s.data)) by
      unfold DataMerger.normalize_name
      rw [if_neg hs]]
    rw [addcn_normalize_eq_cleaned]
    have hcc : cleanedChars (removeDigitsStr s)
        = ((removeDigits s.data).map pyLower).filter keepChar := by
      unfold cleanedChars removeDigitsStr
      rw [show (String.mk (removeDigits s.data)).data = removeDigits s.data from rfl,
        ← pipeline_eq_concatMap, ascii_concatMap_nfd _ hrd, ascii_filter_eq_self _ hrd]
    rw [hcc]
    rfl

theorem digit_free_removeDigits (s : String) (h : ∀ c ∈ s.data, isDigitCh c = false) :
    removeDigitsStr s = s := by
  unfold removeDigitsStr removeDigits
  rw [List.filter_eq_self.mpr (fun c hc => by simp [h c hc]), string_mk_data]

namespace DataMerger

theorem fallbackScan_cons (en sal norm : String) (rest : List (String × String)) :
    fallbackScan ((en, sal) :: rest) norm
      = if fallbackMatch norm en then sal else fallbackScan rest norm := rfl

theorem fallbackScan_eq_find? (items : List (String × String)) (norm : String) :
    fallbackScan items norm
      = match items.find? (fun p => fallbackMatch norm p.1) with
        | some p => p.2
        | none => "" := by
  induction items with
  | nil => rfl
  | cons p rest ih =>
    obtain ⟨en, sal⟩ := p
    cases hm : fallbackMatch norm en with
    | true =>
      rw [fallbackScan_cons, if_pos hm, List.find?_cons_of_pos _ (by simpa using hm)]
    | false =>
      rw [fallbackScan_cons, if_neg (by simp [hm]),
        List.find?_cons_of_neg _ (by simpa using hm), ih]

end DataMerger

theorem lookup_updDict {V : Type} (m : List (String × V)) (k : String) (v : V) (q : String) :
    (updDict m k v).lookup q = if q = k then some v else m.lookup q := by
  induction m with
  | nil =>
    by_cases hq : q = k
    · have hb : (q == k) = true := beq_iff_eq.mpr hq
      simp [updDict, List.lookup, hb, hq]
    · have hb : (q == k) = false := beq_eq_false_iff_ne.mpr hq
      simp [updDict, List.lookup, hb, hq]
  | cons p m ih =>
    obtain ⟨k0, v0⟩ := p
    by_cases h0 : k0 = k
    · subst h0
      by_cases hq : q = k0
      · have hb : (q == k0) = true := beq_iff_eq.mpr hq
        simp [updDict, List.lookup, hb, hq]
      · have hb : (q == k0) = false := beq_eq_false_iff_ne.mpr hq
        simp [updDict, List.lookup, hb, hq]
    · by_cases hq : q = k0
      · have hb0 : (q == k0) = true := beq_iff_eq.mpr hq
        have hqk : ¬(q = k) := fun h => h0 (hq.symm.trans h)
        simp [updDict, h0, List.lookup, hb0, hqk]
      · have hb0 : (q == k0) = false := beq_eq_false_iff_ne.mpr hq
        simp [updDict, h0, List.lookup, hb0, ih]

theorem lookup_append_of_some {V : Type} (m l : List (String × V)) (k : String) (v : V)
    (h : m.lookup k = some v) : (m ++ l).lookup k = some v := by
  induction m with
  | nil => simp [List.lookup] at h
  | cons p m ih =>
    obtain ⟨k0, v0⟩ := p
    by_cases hq : k = k0
    · have hb : (k == k0) = true := beq_iff_eq.mpr hq
      simp [List.lookup, hb] at h ⊢
      exact h
    · have hb : (k == k0) = false := beq_eq_false_iff_ne.mpr hq
      simp [List.lookup, hb] at h ⊢
      exact ih h

namespace AddChineseNames

theorem foldl_officialStep_lookup (ps : List (String × String))
    (m : List (String × String × String)) (k : String) :
    (ps.foldl officialStep m).lookup k
      = match specLookup ps k with
        | some v => some v
        | none => m.lookup k := by
  induction ps generalizing m with
  | nil => rfl
  | cons e ps ih =>
    rw [List.foldl_cons, ih]
    have hstep : (officialStep m e).lookup k
        = if entryWrites e k then some (e.2, e.1) else m.lookup k := by
      unfold officialStep entryWrites
      by_cases h1 : e.1 ≠ "" ∧ e.2 ≠ ""
      · rw [if_pos h1]
        by_cases h2 : normalize_name e.1 ≠ ""
        · rw [if_pos h2, lookup_updDict]
          by_cases h3 : normalize_name e.1 = k
          · rw [if_pos (by rw [h3]), if_pos ⟨h1.1, h1.2, h3, h2⟩]
          · rw [if_neg (fun hk => h3 hk.symm), if_neg (fun hw => h3 hw.2.2.1)]
        · rw [if_neg h2, if_neg (fun hw => h2 hw.2.2.2)]
      · rw [if_neg h1, if_neg (fun hw => h1 ⟨hw.1, hw.2.1⟩)]
    cases hsp : specLookup ps k with
    | some v =>
      rw [show specLookup (e :: ps) k = some v by
        unfold specLookup
        rw [hsp]]
    | none =>
      rw [show specLookup (e :: ps) k
          = if entryWrites e k then some (e.2, e.1) else none by
        unfold specLookup
        rw [hsp], hstep]
      by_cases hw : entryWrites e k
      · rw [if_pos hw, if_pos hw]
      · rw [if_neg hw, if_neg hw]

theorem fetch_lookup_eq_specLookup (ps : List (String × String)) (k : String) :
    (fetch_nba_china_names ps).lookup k = specLookup ps k := by
  unfold fetch_nba_china_names
  rw [foldl_officialStep_lookup]
  cases hsp : specLookup ps k with
  | some v => rfl
  | none => rfl

theorem foldl_manualStep_preserves (manual : List (String × String))
    (m : List (String × String × String)) (k : String) (v : String × String)
    (h : m.lookup k = some v) :
    (manual.foldl manualStep m).lookup k = some v := by
  induction manual generalizing m with
  | nil => exact h
  | cons e manual ih =>
    rw [List.foldl_cons]
    refine ih (manualStep m e) ?_
    unfold manualStep
    by_cases hc : normalize_name e.1 ≠ "" ∧ (m.lookup (normalize_name e.1)).isNone
    · rw [if_pos hc]
      exact lookup_append_of_some m _ k v h
    · rw [if_neg hc]
      exact h

end AddChineseNames

theorem ddAux_cons {α β : Type} [DecidableEq β] (key : α → β) (seen : List β) (a : α)
    (l : List α) :
    ddAux key seen (a :: l)
      = if key a ∈ seen then ddAux key seen l else a :: ddAux key (key a :: seen) l := rfl

theorem ddAux_sublist {α β : Type} [DecidableEq β] (key : α → β) (l : List α) :
    ∀ seen, List.Sublist (ddAux key seen l) l := by
  induction l with
  | nil => intro seen; exact List.Sublist.refl []
  | cons a l ih =>
    intro seen
    rw [ddAux_cons]
    by_cases h : key a ∈ seen
    · rw [if_pos h]
      exact (ih seen).cons a
    · rw [if_neg h]
      exact (ih (key a :: seen)).cons₂ a

theorem ddAux_keys {α β : Type} [DecidableEq β] (key : α → β) (l : List α) :
    ∀ seen, (∀ b ∈ (ddAux key seen l).map key, b ∉ seen)
      ∧ ((ddAux key seen l).map key).Nodup := by
  induction l with
  | nil => intro seen; simp [ddAux]
  | cons a l ih =>
    intro seen
    rw [ddAux_cons]
    by_cases h : key a ∈ seen
    · rw [if_pos h]
      exact ih seen
    · rw [if_neg h]
      have ih' := ih (key a :: seen)
      constructor
      · intro b hb
        rw [List.map_cons] at hb
        rcases List.mem_cons.mp hb with rfl | hb'
        · exact h
        · intro hbseen
          exact ih'.1 b hb' (by simp [hbseen])
      · rw [List.map_cons, List.nodup_cons]
        refine ⟨fun hmem => ih'.1 (key a) hmem (by simp), ih'.2⟩

theorem ddAux_find? {α β : Type} [DecidableEq β] (key : α → β) (l : List α) :
    ∀ seen (k : β), k ∉ seen →
      (ddAux key seen l).find? (fun a => key a == k) = l.find? (fun a => key a == k) := by
  induction l with
  | nil => intro seen k _; rfl
  | cons a l ih =>
    intro seen k hk
    rw [ddAux_cons]
    by_cases h : key a ∈ seen
    · rw [if_pos h]
      have hne : (key a == k) = false := by
        refine beq_eq_false_iff_ne.mpr ?_
        intro he
        exact hk (he ▸ h)
      rw [List.find?_cons_of_neg _ (by simp [hne]), ih seen k hk]
    · rw [if_neg h]
      by_cases he : key a = k
      · have hb : (key a == k) = true := beq_iff_eq.mpr he
        rw [List.find?_cons_of_pos _ (by simp [hb]), List.find?_cons_of_pos _ (by simp [hb])]
      · have hb : (key a == k) = false := beq_eq_false_iff_ne.mpr he
        rw [List.find?_cons_of_neg _ (by simp [hb]), List.find?_cons_of_neg _ (by simp [hb])]
        refine ih (key a :: seen) k ?_
        intro hmem
        rcases List.mem_cons.mp hmem with heq | hmem'
        · exact he heq.symm
        · exact hk hmem'

theorem dedupBy_sublist {α β : Type} [DecidableEq β] (key : α → β) (l : List α) :
    List.Sublist (dedupBy key l) l :=
  ddAux_sublist key l []

theorem dedupBy_keys_nodup {α β : Type} [DecidableEq β] (key : α → β) (l : List α) :
    ((dedupBy key l).map key).Nodup :=
  (ddAux_keys key l []).2

theorem dedupBy_find? {α β : Type} [DecidableEq β] (key : α → β) (l : List α) (k : β) :
    (dedupBy key l).find? (fun a => key a == k) = l.find? (fun a => key a == k) :=
  ddAux_find? key l [] k (by simp)

theorem dedupBy_nodup {α β : Type} [DecidableEq β] (key : α → β) (l : List α) :
    (dedupBy key l).Nodup :=
  (dedupBy_keys_nodup key l).of_map

theorem dedupBy_id_nodup {α : Type} [DecidableEq α] (l : List α) : (dedupBy id l).Nodup := by
  have h := dedupBy_keys_nodup id l
  rw [List.map_id] at h
  exact h

theorem idxOf?_of_not_mem (name : String) (cols : List String) (h : name ∉ cols) :
    idxOf? name cols = none := by
  induction cols with
  | nil => rfl
  | cons c cols ih =>
    have hc : ¬(c = name) := fun he => h (by simp [he])
    rw [idxOf?, if_neg hc, ih (fun hmem => h (by simp [hmem]))]
    rfl

theorem idxOf?_append_cons (name : String) (A B : List String) (h : name ∉ A) :
    idxOf? name (A ++ name :: B) = some A.length := by
  induction A with
  | nil => simp [idxOf?]
  | cons c A ih =>
    have hc : ¬(c = name) := fun he => h (by simp [he])
    rw [List.cons_append, idxOf?, if_neg hc, ih (fun hmem => h (by simp [hmem]))]
    rfl

theorem eraseIdx_append_cons {α : Type} (r : List α) (x : α) (t : List α) :
    (r ++ x :: t).eraseIdx r.length = r ++ t := by
  induction r with
  | nil => rfl
  | cons a r ih =>
    rw [List.cons_append, List.length_cons, List.eraseIdx_cons_succ, ih, List.cons_append]

namespace DataCleaner

theorem applyColIfPresent_nil (cols : List String) (name : String) (f : Cell → Cell) :
    applyColIfPresent cols name f [] = [] := by
  unfold applyColIfPresent
  cases idxOf? name cols with
  | none => rfl
  | some i => rfl

theorem statsPipeline_nil (category : String) (cols : List String) :
    statsPipeline category ⟨cols, []⟩ = [] := by
  unfold statsPipeline
  have hfold : ∀ cs : List String,
      cs.foldl (fun rs col => applyColIfPresent cols col toNumericCell rs) [] = [] := by
    intro cs
    induction cs with
    | nil => rfl
    | cons c cs ih => rw [List.foldl_cons, applyColIfPresent_nil, ih]
  simp only [List.filter_nil, hfold, applyColIfPresent_nil]

theorem applyRankCol_nil (cols : List String) (name : String) :
    applyRankCol cols name [] = some [] := by
  unfold applyRankCol
  cases idxOf? name cols with
  | none => rfl
  | some i => rfl

theorem rosterPipeline_nil (cols : List String) :
    rosterPipeline ⟨cols, []⟩ = [] := by
  unfold rosterPipeline
  simp only [List.filter_nil, applyColIfPresent_nil]

end DataCleaner

namespace DataMerger

theorem setColF_of_not_mem (df : DF) (name : String) (f : List String → String)
    (h : name ∉ df.cols) :
    setColF df name f = ⟨df.cols ++ [name], df.rows.map (fun r => r ++ [f r])⟩ := by
  unfold setColF
  rw [idxOf?_of_not_mem name df.cols h]

theorem merge_eq_of_no_en (hupu espn : DF) (h : "英文名" ∉ hupu.cols) :
    merge_roster_with_salary hupu espn = hupu := by
  unfold merge_roster_with_salary
  rw [if_neg h]

theorem merge_eq_of_no_name (hupu espn : DF) (h1 : "英文名" ∈ hupu.cols)
    (h2 : "Name" ∉ espn.cols) :
    merge_roster_with_salary hupu espn
      = setColF hupu "_match_name" (fun r => normalize_name (rowGet hupu.cols "英文名" r)) := by
  unfold merge_roster_with_salary
  rw [if_pos h1, if_neg h2]

theorem merge_eq_of_both (hupu espn : DF) (h1 : "英文名" ∈ hupu.cols)
    (h2 : "Name" ∈ espn.cols) :
    merge_roster_with_salary hupu espn
      = dropCol
          (setColF (setColF hupu "_match_name" (fun r => normalize_name (rowGet hupu.cols "英文名" r)))
            "薪资"
            (fun r => find_salary
              (buildSalaryMap (setColF espn "_match_name"
                (fun r => normalize_name (rowGet espn.cols "Name" r))))
              (rowGet (setColF hupu "_match_name"
                (fun r => normalize_name (rowGet hupu.cols "英文名" r))).cols "英文名" r)))
          "_match_name" := by
  unfold merge_roster_with_salary
  rw [if_pos h1, if_pos h2]

end DataMerger

theorem map_congr_id {α : Type} (l : List α) (f : α → α) (h : ∀ a ∈ l, f a = a) :
    l.map f = l := by
  induction l with
  | nil => rfl
  | cons a l ih =>
    rw [List.map_cons, h a (by simp), ih (fun a' ha' => h a' (by simp [ha']))]

namespace DataMerger

theorem find_salary_eq (salaryMap : List (String × String)) (englishName : String) :
    find_salary salaryMap englishName
      = match salaryMap.lookup (normalize_name englishName) with
        | some s => s
        | none => fallbackScan salaryMap (normalize_name englishName) := rfl

theorem dropCol_eq_some (df : DF) (name : String) (i : Nat)
    (h : idxOf? name df.cols = some i) :
    dropCol df name = ⟨df.cols.eraseIdx i, df.rows.map (fun r => r.eraseIdx i)⟩ := by
  unfold dropCol
  rw [h]

end DataMerger

namespace DataCleaner

theorem parse_percentage_some (raw : String) :
    parse_percentage (some raw)
      = if (pyStrip raw).data.contains '%' then
          parseFloatQ (String.mk ((pyStrip raw).data.filter (fun c => c ≠ '%')))
        else
          match parseFloatQ (pyStrip raw) with
          | some q => some (if q ≤ 1 then ratTimes100 q else q)
          | none => none := rfl

theorem clean_player_stats_eq (df : DF) (category : String) :
    clean_player_stats df category
      = if df.rows.isEmpty then some ⟨[], []⟩
        else
          match applyRankCol df.cols "排名" (statsPipeline category df) with
          | none => none
          | some rows => some ⟨df.cols, dedupBy id rows⟩ := rfl

theorem clean_roster_eq (df : DF) :
    clean_roster df
      = if df.rows.isEmpty then some ⟨[], []⟩
        else
          match idxOf? "球员" df.cols with
          | none => none
          | some i => some ⟨df.cols, dedupBy (fun r => r.getD i Cell.na) (rosterPipeline df)⟩ :=
  rfl

end DataCleaner

namespace RequestHandler

theorem getAux_succ (oc : Nat → Outcome) (attempt fuel : Nat) :
    getAux oc attempt (fuel + 1)
      = if isSuccess (oc attempt) then (some (oc attempt), 1, [])
        else if fuel = 0 then (none, 1, [])
        else
          ((getAux oc (attempt + 1) fuel).1, (getAux oc (attempt + 1) fuel).2.1 + 1,
            (attempt + 1) * 2 :: (getAux oc (attempt + 1) fuel).2.2) := rfl

/-- Closed-form behaviour of the retry loop across its three dispatches. -/
theorem get_eq_cases (oc : Nat → Outcome) :
    get oc
      = if isSuccess (oc 0) then (some (oc 0), 1, [])
        else if isSuccess (oc 1) then (some (oc 1), 2, [2])
        else if isSuccess (oc 2) then (some (oc 2), 3, [2, 4])
        else (none, 3, [2, 4]) := by
  have he : get oc = getAux oc 0 (0 + 1 + 1 + 1) := rfl
  rw [he, getAux_succ, getAux_succ, getAux_succ]
  cases h0 : isSuccess (oc 0) <;> cases h1 : isSuccess (oc (0 + 1)) <;>
    cases h2 : isSuccess (oc (0 + 1 + 1)) <;>
      simp [h0, h1, h2]

end RequestHandler

example : AddChineseNames.normalize_name "LeBron James" = "lebron james" := by decide

example : AddChineseNames.normalize_name "lebronjames" = "lebronjames" := by decide

example : AddChineseNames.normalize_name "José Ángel" = "jose angel" := by decide

example : AddChineseNames.normalize_name "  D'Angelo  Russell " = "dangelo russell" := by
  decide

example : DataMerger.normalize_name "José" = "jos" := by decide

example : DataMerger.normalize_name "Name 23" = "name" := by decide

example : AddChineseNames.normalize_name (removeDigitsStr "José") = "jose" := by decide

example : DataCleaner.parse_percentage (some "45.6%") = some (mkRat 456 10) := by decide

example : DataCleaner.parse_percentage (some "0.456") = some (mkRat 456 10) := by decide

example : DataCleaner.parse_percentage (some "1.5") = some (mkRat 15 10) := by decide

example : DataCleaner.parse_percentage (some ".456") = some (mkRat 456 10) := by decide

example : DataCleaner.parse_percentage (some "-5") = some (mkRat (-500) 1) := by decide

example : DataCleaner.parse_percentage (some "4%5%") = some (mkRat 45 1) := by decide

example : DataCleaner.parse_percentage (some "abc") = none := by decide

example : parseFloatQ "4%5" = none := by decide

example : DataCleaner.parse_percentage (some "45.6%") = some ((45.6 : ℚ)) := by
  rw [show DataCleaner.parse_percentage (some "45.6%") = some (mkRat 456 10) by decide,
    Rat.mkRat_eq_div]
  norm_num

/-- C1: the spec (and the source's own comment at
src/add_chinese_names.py lines 94-96, which asserts that
`normalize_name` strips spaces) requires the merge to match a primary
identity "LeBron James" against a Name-Map key derived from the
spaceless slug "lebronjames".  The code does not: `normalize_name`
collapses but preserves internal spaces, so the lookup key
"lebron james" misses the map key "lebronjames" and the localized-name
field is left empty.  This theorem evaluates the embedded code at the
failing input. -/
theorem C1_slug_merge_no_match :
    AddChineseNames.normalize_name "lebronjames" = "lebronjames"
    ∧ AddChineseNames.normalize_name "LeBron James" = "lebron james"
    ∧ AddChineseNames.matchChineseName
        [(AddChineseNames.normalize_name "lebronjames", ("勒布朗-詹姆斯", "lebronjames"))]
        "LeBron James" = ""
    ∧ ("lebron james" : String) ≠ "lebronjames" := by
  decide

/-- C2: `find_salary` of src/data_merger.py returns the mapped value
whenever the normalized primary key is present verbatim in the salary
map (the fallback is not consulted); only on an exact miss does it scan
the map in iteration order and accept the first candidate matching on
last token and first initial; when both stages miss it returns the
empty string rather than an error. -/
theorem C2_find_salary_stages :
    ∀ (salaryMap : List (String × String)) (name : String),
      (∀ v, salaryMap.lookup (DataMerger.normalize_name name) = some v →
          DataMerger.find_salary salaryMap name = v)
      ∧ (salaryMap.lookup (DataMerger.normalize_name name) = none →
          DataMerger.find_salary salaryMap name
            = match salaryMap.find?
                (fun p => DataMerger.fallbackMatch (DataMerger.normalize_name name) p.1) with
              | some p => p.2
              | none => "")
      ∧ (salaryMap.lookup (DataMerger.normalize_name name) = none →
          salaryMap.find?
              (fun p => DataMerger.fallbackMatch (DataMerger.normalize_name name) p.1) = none →
          DataMerger.find_salary salaryMap name = "") := by
  intro salaryMap name
  refine ⟨?_, ?_, ?_⟩
  · intro v h
    rw [DataMerger.find_salary_eq, h]
  · intro h
    rw [DataMerger.find_salary_eq, h, DataMerger.fallbackScan_eq_find?]
  · intro h hf
    rw [DataMerger.find_salary_eq, h, DataMerger.fallbackScan_eq_find?, hf]

theorem C2_find_salary_stages_witness :
    DataMerger.find_salary [("lebron james", "100")] "LeBron James" = "100"
    ∧ DataMerger.find_salary [("lebron x james", "50")] "LeBron James" = "50"
    ∧ DataMerger.find_salary [("stephen curry", "7")] "LeBron James" = "" := by
  refine ⟨(C2_find_salary_stages [("lebron james", "100")] "LeBron James").1 "100" (by decide),
    ?_, (C2_find_salary_stages [("stephen curry", "7")] "LeBron James").2.2
      (by decide) (by decide)⟩
  have h := (C2_find_salary_stages [("lebron x james", "50")] "LeBron James").2.1 (by decide)
  exact h.trans (by decide)

/-- C3: the primary normalizer (src/add_chinese_names.py) is total
(`None`/missing and the empty string map to `""`), idempotent, and its
output uses only `[a-z ]` with no leading, trailing or doubled space;
two inputs whose per-character contributions (accent-stripped,
lowercased, punctuation-dropped) agree normalize identically — in
particular inputs differing only by accents, case, or surrounding
punctuation, e.g. "José Ángel" and "jose angel". -/
theorem C3_normalize_total_idempotent :
    AddChineseNames.normalizeCell none = ""
    ∧ AddChineseNames.normalize_name "" = ""
    ∧ (∀ s, AddChineseNames.normalize_name (AddChineseNames.normalize_name s)
        = AddChineseNames.normalize_name s)
    ∧ (∀ s, (∀ c ∈ (AddChineseNames.normalize_name s).data, isLowerAZ c = true ∨ c = ' ')
        ∧ (AddChineseNames.normalize_name s).data.head? ≠ some ' '
        ∧ (AddChineseNames.normalize_name s).data.getLast? ≠ some ' '
        ∧ noDblSpace (AddChineseNames.normalize_name s).data = true)
    ∧ (∀ x y, cleanedChars x = cleanedChars y →
        AddChineseNames.normalize_name x = AddChineseNames.normalize_name y)
    ∧ AddChineseNames.normalize_name "José Ángel" = "jose angel"
    ∧ AddChineseNames.normalize_name "jose angel" = "jose angel" := by
  refine ⟨rfl, rfl, addcn_normalize_idem, addcn_normalize_format, ?_, by decide, by decide⟩
  intro x y h
  rw [addcn_normalize_eq_cleaned, addcn_normalize_eq_cleaned, h]

theorem C3_normalize_total_idempotent_witness :
    AddChineseNames.normalize_name (AddChineseNames.normalize_name " LeBron  James ")
      = AddChineseNames.normalize_name " LeBron  James "
    ∧ AddChineseNames.normalize_name "Émile." = AddChineseNames.normalize_name "emile" :=
  ⟨C3_normalize_total_idempotent.2.2.1 " LeBron  James ",
    C3_normalize_total_idempotent.2.2.2.2.1 "Émile." "emile" (by decide)⟩

/-- C4 counterexample: the claimed equation
`merger_normalize(x) = primary_normalize(x with digits removed)` fails
at the accented input "José": the merger normalizer
(src/data_merger.py) has no NFD/ASCII stage, the lowercased "é" is
deleted by the `[^a-z\s]` filter, giving "jos", while the primary
normalizer yields "jose". -/
theorem C4_accent_counterexample :
    DataMerger.normalize_name "José" = "jos"
    ∧ AddChineseNames.normalize_name (removeDigitsStr "José") = "jose"
    ∧ DataMerger.normalize_name "José"
        ≠ AddChineseNames.normalize_name (removeDigitsStr "José") := by
  decide

/-- C4 amended: restricted to all-ASCII inputs the claim holds — the
merger normalizer equals the primary normalizer composed with digit
removal, and on digit-free ASCII inputs the two normalizers coincide. -/
theorem C4_ascii_digit_equivalence :
    ∀ s : String, (∀ c ∈ s.data, c.toNat < 128) →
      DataMerger.normalize_name s = AddChineseNames.normalize_name (removeDigitsStr s)
      ∧ ((∀ c ∈ s.data, isDigitCh c = false) →
          DataMerger.normalize_name s = AddChineseNames.normalize_name s) := by
  intro s h
  refine ⟨merger_normalize_ascii s h, fun hd => ?_⟩
  rw [merger_normalize_ascii s h, digit_free_removeDigits s hd]

theorem C4_ascii_digit_equivalence_witness :
    DataMerger.normalize_name "Player 23"
      = AddChineseNames.normalize_name (removeDigitsStr "Player 23")
    ∧ DataMerger.normalize_name "LeBron James"
      = AddChineseNames.normalize_name "LeBron James" :=
  ⟨(C4_ascii_digit_equivalence "Player 23" (by decide)).1,
    (C4_ascii_digit_equivalence "LeBron James" (by decide)).2 (by decide)⟩

/-- C5 counterexample: `fetch_nba_china_names` uses plain dict
assignment, so a later entry for the same normalized key OVERWRITES the
earlier value — the claimed first-writer-wins fails already inside the
officially-sourced loading. -/
theorem C5_last_writer_counterexample :
    (AddChineseNames.fetch_nba_china_names [("Jo Kic", "A"), ("Jo Kic", "B")]).lookup "jo kic"
      = some ("B", "Jo Kic")
    ∧ (("B", "Jo Kic") : String × String) ≠ ("A", "Jo Kic") := by
  decide

/-- C5 amended: the officially-sourced loading is LAST-writer-wins (the
map holds, for each key, the value of the last feed entry writing it,
as `specLookup` computes), while the manual override table never
changes a key already present in the officially-sourced mapping. -/
theorem C5_name_map_precedence :
    (∀ ps k, (AddChineseNames.fetch_nba_china_names ps).lookup k
        = AddChineseNames.specLookup ps k)
    ∧ (∀ ps manual k v,
        (AddChineseNames.fetch_nba_china_names ps).lookup k = some v →
        (AddChineseNames.load_player_names_mapping ps manual).lookup k = some v) := by
  refine ⟨AddChineseNames.fetch_lookup_eq_specLookup, ?_⟩
  intro ps manual k v h
  show (manual.foldl AddChineseNames.manualStep
    (AddChineseNames.fetch_nba_china_names ps)).lookup k = some v
  exact AddChineseNames.foldl_manualStep_preserves manual _ k v h

theorem C5_name_map_precedence_witness :
    (AddChineseNames.fetch_nba_china_names [("Jo Kic", "A")]).lookup "jo kic"
      = AddChineseNames.specLookup [("Jo Kic", "A")] "jo kic"
    ∧ (AddChineseNames.load_player_names_mapping
        [("Jo Kic", "A")] [("Jo Kic", "C")]).lookup "jo kic" = some ("A", "Jo Kic") :=
  ⟨C5_name_map_precedence.1 [("Jo Kic", "A")] "jo kic",
    C5_name_map_precedence.2 [("Jo Kic", "A")] [("Jo Kic", "C")] "jo kic" ("A", "Jo Kic")
      (by decide)⟩

/-- C6 counterexample: the claim says any 2xx response is returned as
success, but `RequestHandler.get` (src/nba_crawler/request_handler.py
line 78) accepts only status 200 — a constant 201 is retried three
times and the failure sentinel is returned. -/
theorem C6_status_2xx_counterexample :
    RequestHandler.get (fun _ => RequestHandler.Outcome.status 201) = (none, 3, [2, 4])
    ∧ 200 ≤ 201 ∧ 201 < 300 := by
  decide

/-- C6 amended: at most 3 dispatches; an attempt succeeds exactly when
its status is literally 200 (any other status, timeout, connection
error, or other request exception is retried); waits are 2s then 4s
after the first and second failures; three failures return the `None`
sentinel with no fourth dispatch and no exception. -/
theorem C6_retry_schedule :
    ∀ oc : Nat → RequestHandler.Outcome,
      RequestHandler.get oc
        = (if RequestHandler.isSuccess (oc 0) then (some (oc 0), 1, [])
           else if RequestHandler.isSuccess (oc 1) then (some (oc 1), 2, [2])
           else if RequestHandler.isSuccess (oc 2) then (some (oc 2), 3, [2, 4])
           else (none, 3, [2, 4]))
      ∧ (RequestHandler.get oc).2.1 ≤ RequestHandler.MAX_RETRIES
      ∧ (∀ o : RequestHandler.Outcome,
          RequestHandler.isSuccess o = true ↔ o = RequestHandler.Outcome.status 200) := by
  intro oc
  refine ⟨RequestHandler.get_eq_cases oc, ?_, ?_⟩
  · rw [RequestHandler.get_eq_cases oc]
    split_ifs <;> norm_num [RequestHandler.MAX_RETRIES]
  · intro o
    cases o <;> simp [RequestHandler.isSuccess]

theorem C6_retry_schedule_witness :
    RequestHandler.get (fun _ => RequestHandler.Outcome.status 200)
      = (some (RequestHandler.Outcome.status 200), 1, [])
    ∧ RequestHandler.get
        (fun i => if i = 0 then RequestHandler.Outcome.timeout
          else RequestHandler.Outcome.status 200)
      = (some (RequestHandler.Outcome.status 200), 2, [2]) :=
  ⟨((C6_retry_schedule (fun _ => RequestHandler.Outcome.status 200)).1).trans (by decide),
    ((C6_retry_schedule (fun i => if i = 0 then RequestHandler.Outcome.timeout
      else RequestHandler.Outcome.status 200)).1).trans (by decide)⟩

/-- C7 counterexample: the scaling condition of `_parse_percentage`
(src/data_cleaner.py line 176) is the signed comparison `num <= 1`, not
a magnitude test — "-5" has magnitude 5 > 1 yet is scaled to -500, so
the claim's "multiplied by 100 exactly when the parsed magnitude is
<= 1 ... values > 1 pass through unscaled" is false; moreover every `%`
is removed, not only a trailing one: "4%5%" parses to 45 although its
trailing-%-stripped remainder "4%5" is unparseable. -/
theorem C7_magnitude_counterexample :
    DataCleaner.parse_percentage (some "-5") = some ((-500 : ℚ))
    ∧ ¬(|(-5 : ℚ)| ≤ 1)
    ∧ ((-500 : ℚ) ≠ (-5 : ℚ))
    ∧ DataCleaner.parse_percentage (some "4%5%") = some ((45 : ℚ))
    ∧ parseFloatQ "4%5" = none := by
  refine ⟨?_, by norm_num, by norm_num, ?_, by decide⟩
  · rw [show DataCleaner.parse_percentage (some "-5") = some (mkRat (-500) 1) by decide,
      Rat.mkRat_eq_div]
    norm_num
  · rw [show DataCleaner.parse_percentage (some "4%5%") = some (mkRat 45 1) by decide,
      Rat.mkRat_eq_div]
    norm_num

/-- C7 amended: when the input contains a `%`, every `%` is removed and
the remainder parsed as-is; without a `%` the input is parsed as a bare
decimal and multiplied by 100 exactly when the parsed (signed) value is
`<= 1`, larger values passing through unscaled; unparseable text in
either branch (and a missing value) yields the typed missing value; the
spec's examples "45.6%" -> 45.6, "0.456" -> 45.6, "1.5" -> 1.5 hold. -/
theorem C7_percentage_rules :
    DataCleaner.parse_percentage none = none
    ∧ (∀ s q, (pyStrip s).data.contains '%' = true →
        parseFloatQ (String.mk ((pyStrip s).data.filter (fun c => c ≠ '%'))) = some q →
        DataCleaner.parse_percentage (some s) = some q)
    ∧ (∀ s, (pyStrip s).data.contains '%' = true →
        parseFloatQ (String.mk ((pyStrip s).data.filter (fun c => c ≠ '%'))) = none →
        DataCleaner.parse_percentage (some s) = none)
    ∧ (∀ s q, (pyStrip s).data.contains '%' = false → parseFloatQ (pyStrip s) = some q →
        DataCleaner.parse_percentage (some s) = some (if q ≤ 1 then q * 100 else q))
    ∧ (∀ s, (pyStrip s).data.contains '%' = false → parseFloatQ (pyStrip s) = none →
        DataCleaner.parse_percentage (some s) = none)
    ∧ DataCleaner.parse_percentage (some "45.6%") = some ((45.6 : ℚ))
    ∧ DataCleaner.parse_percentage (some "0.456") = some ((45.6 : ℚ))
    ∧ DataCleaner.parse_percentage (some "1.5") = some ((1.5 : ℚ)) := by
  refine ⟨rfl, ?_, ?_, ?_, ?_, ?_, ?_, ?_⟩
  · intro s q h hq
    rw [DataCleaner.parse_percentage_some, if_pos h, hq]
  · intro s h hq
    rw [DataCleaner.parse_percentage_some, if_pos h, hq]
  · intro s q h hq
    rw [DataCleaner.parse_percentage_some, if_neg (by rw [h]; simp), hq]
    show some (if q ≤ 1 then ratTimes100 q else q) = some (if q ≤ 1 then q * 100 else q)
    by_cases hle : q ≤ 1
    · rw [if_pos hle, if_pos hle, ratTimes100_eq]
    · rw [if_neg hle, if_neg hle]
  · intro s h hq
    rw [DataCleaner.parse_percentage_some, if_neg (by rw [h]; simp), hq]
  · rw [show DataCleaner.parse_percentage (some "45.6%") = some (mkRat 456 10) by decide,
      Rat.mkRat_eq_div]
    norm_num
  · rw [show DataCleaner.parse_percentage (some "0.456") = some (mkRat 456 10) by decide,
      Rat.mkRat_eq_div]
    norm_num
  · rw [show DataCleaner.parse_percentage (some "1.5") = some (mkRat 15 10) by decide,
      Rat.mkRat_eq_div]
    norm_num

theorem C7_percentage_rules_witness :
    DataCleaner.parse_percentage (some "45.6%") = some (mkRat 456 10)
    ∧ DataCleaner.parse_percentage (some "abc") = none :=
  ⟨C7_percentage_rules.2.1 "45.6%" (mkRat 456 10) (by decide) (by decide),
    C7_percentage_rules.2.2.2.2.1 "abc" (by decide) (by decide)⟩

/-- C8: both cleaners return an empty record set (not an error) on empty
input; whenever `clean_player_stats` returns, its rows carry no exact
full-row duplicates; whenever `clean_roster` returns with the identity
column at index `i`, the surviving rows are a subsequence of the
pre-dedup pipeline with pairwise-distinct identity values (hence no
full-row duplicates), and for every identity value the surviving
representative is the first matching row of the pipeline. -/
theorem C8_clean_dedup :
    (∀ (cols : List String) cat, DataCleaner.clean_player_stats ⟨cols, []⟩ cat = some ⟨[], []⟩)
    ∧ (∀ cols : List String, DataCleaner.clean_roster ⟨cols, []⟩ = some ⟨[], []⟩)
    ∧ (∀ df cat out, DataCleaner.clean_player_stats df cat = some out → out.rows.Nodup)
    ∧ (∀ df out i, idxOf? "球员" df.cols = some i → DataCleaner.clean_roster df = some out →
        List.Sublist out.rows (DataCleaner.rosterPipeline df)
        ∧ (out.rows.map (fun r => r.getD i DataCleaner.Cell.na)).Nodup
        ∧ out.rows.Nodup
        ∧ (∀ k, out.rows.find? (fun r => r.getD i DataCleaner.Cell.na == k)
            = (DataCleaner.rosterPipeline df).find?
                (fun r => r.getD i DataCleaner.Cell.na == k))) := by
  refine ⟨fun cols cat => rfl, fun cols => rfl, ?_, ?_⟩
  · intro df cat out h
    rw [DataCleaner.clean_player_stats_eq] at h
    cases he : df.rows.isEmpty with
    | true =>
      rw [he, if_pos rfl] at h
      obtain rfl : (⟨[], []⟩ : DataCleaner.DF) = out := Option.some.inj h
      exact List.nodup_nil
    | false =>
      rw [he, if_neg (by simp)] at h
      cases hr : DataCleaner.applyRankCol df.cols "排名" (DataCleaner.statsPipeline cat df) with
      | none =>
        rw [hr] at h
        cases h
      | some rows2 =>
        rw [hr] at h
        obtain rfl : (⟨df.cols, dedupBy id rows2⟩ : DataCleaner.DF) = out := Option.some.inj h
        exact dedupBy_id_nodup rows2
  · intro df out i hidx h
    obtain ⟨cols, rows⟩ := df
    rw [DataCleaner.clean_roster_eq] at h
    cases he : (DataCleaner.DF.mk cols rows).rows.isEmpty with
    | true =>
      have hrows : rows = [] := by simpa [List.isEmpty_iff] using he
      subst hrows
      rw [he, if_pos rfl] at h
      obtain rfl : (⟨[], []⟩ : DataCleaner.DF) = out := Option.some.inj h
      rw [DataCleaner.rosterPipeline_nil]
      exact ⟨List.nil_sublist [], List.nodup_nil, List.nodup_nil, fun k => rfl⟩
    | false =>
      rw [he, if_neg (by simp)] at h
      rw [show idxOf? "球员" (DataCleaner.DF.mk cols rows).cols = some i from hidx] at h
      obtain rfl : (⟨cols, dedupBy (fun r => r.getD i DataCleaner.Cell.na)
          (DataCleaner.rosterPipeline ⟨cols, rows⟩)⟩ : DataCleaner.DF) = out :=
        Option.some.inj h
      exact ⟨dedupBy_sublist _ _, dedupBy_keys_nodup _ _, dedupBy_nodup _ _,
        fun k => dedupBy_find? _ _ k⟩

theorem C8_clean_dedup_witness :
    DataCleaner.clean_player_stats ⟨["x"], []⟩ "pts" = some ⟨[], []⟩
    ∧ ([[DataCleaner.Cell.s "A"]] : List (List DataCleaner.Cell)).Nodup := by
  constructor
  · exact C8_clean_dedup.1 ["x"] "pts"
  · exact (C8_clean_dedup.2.2.2 ⟨["球员"], [[DataCleaner.Cell.s "A"], [DataCleaner.Cell.s "A"]]⟩
      ⟨["球员"], [[DataCleaner.Cell.s "A"]]⟩ 0 (by decide) (by decide)).2.2.1

/-- C9: `CSVStorage.save` on an empty record set returns the `None`
sentinel and leaves the file system (hence any pre-existing file at the
target path) unchanged — the empty check precedes every file
operation. -/
theorem C9_save_empty_noop :
    ∀ (fs : Storage.FS) (df : DataCleaner.DF) (filename mode : String),
      Storage.dfEmpty df = true → Storage.save fs df filename mode = (none, fs) := by
  intro fs df filename mode h
  unfold Storage.save
  rw [if_pos h]

theorem C9_save_empty_noop_witness :
    Storage.save ⟨[("output/a.csv", ["hdr", "row"])]⟩ ⟨[], []⟩ "a.csv" "w"
      = (none, ⟨[("output/a.csv", ["hdr", "row"])]⟩) :=
  C9_save_empty_noop ⟨[("output/a.csv", ["hdr", "row"])]⟩ ⟨[], []⟩ "a.csv" "w" (by decide)

theorem map_congr_fun {α β : Type} (l : List α) (f g : α → β) (h : ∀ a ∈ l, f a = g a) :
    l.map f = l.map g := by
  induction l with
  | nil => rfl
  | cons a l ih =>
    rw [List.map_cons, List.map_cons, h a (by simp), ih (fun a' ha' => h a' (by simp [ha']))]

namespace DataMerger

theorem setColF_new_cols (df : DF) (name : String) (f : List String → String)
    (h : name ∉ df.cols) : (setColF df name f).cols = df.cols ++ [name] := by
  rw [setColF_of_not_mem _ _ _ h]

theorem dropCol_setColF_new (df : DF) (name : String) (f : List String → String)
    (h : name ∉ df.cols) (hwf : WF df) : dropCol (setColF df name f) name = df := by
  obtain ⟨cols, rows⟩ := df
  rw [setColF_of_not_mem _ _ _ h]
  rw [dropCol_eq_some _ _ cols.length (idxOf?_append_cons name cols [] h)]
  simp only [DF.mk.injEq]
  constructor
  · rw [eraseIdx_append_cons cols name [], List.append_nil]
  · rw [List.map_map]
    refine map_congr_id rows _ ?_
    intro r hr
    show (r ++ [f r]).eraseIdx cols.length = r
    rw [← hwf r hr, eraseIdx_append_cons r (f r) [], List.append_nil]

theorem dropCol_setColF_mid (df : DF) (x y : String) (f g : List String → String)
    (hx : x ∉ df.cols) (hy : y ∉ df.cols) (hxy : y ≠ x) (hwf : WF df) :
    dropCol (setColF (setColF df x f) y g) x
      = setColF df y (fun r => g (r ++ [f r])) := by
  obtain ⟨cols, rows⟩ := df
  rw [setColF_of_not_mem _ _ _ hx]
  have hyA : y ∉ cols ++ [x] := by
    intro hmem
    rcases List.mem_append.mp hmem with hmem' | hmem'
    · exact hy hmem'
    · exact hxy (by simpa using hmem')
  rw [setColF_of_not_mem _ _ _ hyA]
  have hidx : idxOf? x ((cols ++ [x]) ++ [y]) = some cols.length := by
    rw [List.append_assoc]
    exact idxOf?_append_cons x cols [y] hx
  rw [dropCol_eq_some _ _ cols.length hidx]
  rw [setColF_of_not_mem _ _ _ hy]
  simp only [DF.mk.injEq]
  constructor
  · rw [List.append_assoc]
    exact eraseIdx_append_cons cols x [y]
  · rw [List.map_map, List.map_map]
    refine map_congr_fun rows _ _ ?_
    intro r hr
    show ((r ++ [f r]) ++ [g (r ++ [f r])]).eraseIdx cols.length = r ++ [g (r ++ [f r])]
    rw [List.append_assoc, ← hwf r hr]
    exact eraseIdx_append_cons r (f r) [g (r ++ [f r])]

end DataMerger

/-- C10: frame effects of `merge_roster_with_salary` — with the primary
identity column absent, the primary set is returned untouched; with it
present but the secondary "Name" column absent, the returned primary is
the input with only the `_match_name` helper column appended (its data
otherwise intact, no salary column); in the successful path the helper
column is dropped again and the result is exactly the input primary
plus the `薪资` (salary) column.  The `_match_name`/`薪资`-absence and
row-alignment hypotheses state that the input is a freshly loaded
roster. -/
theorem C10_merge_frame :
    ∀ hupu espn : DataMerger.DF,
      ("英文名" ∉ hupu.cols → DataMerger.merge_roster_with_salary hupu espn = hupu)
      ∧ ("英文名" ∈ hupu.cols → "Name" ∉ espn.cols →
          "_match_name" ∉ hupu.cols → "薪资" ∉ hupu.cols → DataMerger.WF hupu →
          (DataMerger.merge_roster_with_salary hupu espn).cols = hupu.cols ++ ["_match_name"]
          ∧ "薪资" ∉ (DataMerger.merge_roster_with_salary hupu espn).cols
          ∧ DataMerger.dropCol (DataMerger.merge_roster_with_salary hupu espn) "_match_name"
              = hupu)
      ∧ ("英文名" ∈ hupu.cols → "Name" ∈ espn.cols →
          "_match_name" ∉ hupu.cols → "薪资" ∉ hupu.cols → DataMerger.WF hupu →
          (DataMerger.merge_roster_with_salary hupu espn).cols = hupu.cols ++ ["薪资"]
          ∧ "_match_name" ∉ (DataMerger.merge_roster_with_salary hupu espn).cols
          ∧ DataMerger.dropCol (DataMerger.merge_roster_with_salary hupu espn) "薪资"
              = hupu) := by
  intro hupu espn
  refine ⟨DataMerger.merge_eq_of_no_en hupu espn, ?_, ?_⟩
  · intro h1 h2 hm hs hwf
    rw [DataMerger.merge_eq_of_no_name hupu espn h1 h2]
    refine ⟨DataMerger.setColF_new_cols _ _ _ hm, ?_,
      DataMerger.dropCol_setColF_new _ _ _ hm hwf⟩
    rw [DataMerger.setColF_new_cols _ _ _ hm]
    intro hmem
    rcases List.mem_append.mp hmem with hmem' | hmem'
    · exact hs hmem'
    · simp at hmem'
  · intro h1 h2 hm hs hwf
    rw [DataMerger.merge_eq_of_both hupu espn h1 h2,
      DataMerger.dropCol_setColF_mid hupu "_match_name" "薪资" _ _ hm hs (by decide) hwf]
    refine ⟨DataMerger.setColF_new_cols _ _ _ hs, ?_,
      DataMerger.dropCol_setColF_new _ _ _ hs hwf⟩
    rw [DataMerger.setColF_new_cols _ _ _ hs]
    intro hmem
    rcases List.mem_append.mp hmem with hmem' | hmem'
    · exact hm hmem'
    · simp at hmem'

theorem C10_merge_frame_witness :
    DataMerger.dropCol
        (DataMerger.merge_roster_with_salary ⟨["英文名"], [["LeBron James"]]⟩
          ⟨["Name", "Salary"], [["LeBron James", "$46m"]]⟩) "薪资"
      = ⟨["英文名"], [["LeBron James"]]⟩
    ∧ DataMerger.merge_roster_with_salary ⟨["球员"], [["某人"]]⟩
        ⟨["Name", "Salary"], [["LeBron James", "$46m"]]⟩
      = ⟨["球员"], [["某人"]]⟩ := by
  constructor
  · exact ((C10_merge_frame ⟨["英文名"], [["LeBron James"]]⟩
      ⟨["Name", "Salary"], [["LeBron James", "$46m"]]⟩).2.2 (by decide) (by decide)
      (by decide) (by decide)
      (by intro r hr; simp at hr; subst hr; rfl)).2.2
  · exact (C10_merge_frame ⟨["球员"], [["某人"]]⟩
      ⟨["Name", "Salary"], [["LeBron James", "$46m"]]⟩).1 (by decide)

